import Mathlib

/-!
Verification of the user-registry and HTTP-handler behavior of the
`test-go` repository.

The registry code embedded here is `users/users.go` (the version with the
duplicate check and `GetUserByName`): `Manager.AddUser` validates the first
name, the last name, looks the pair up, parses the email, and appends; and
`Manager.GetUserByName` linearly scans the slice for the first exact match.
The HTTP handlers embedded are `handleHelloParameterized`, `handleHello`
and `handleJSON` from `main.go`.

Go slices become Lean lists; a method on `*Manager` becomes a function
`Manager → ... → Manager × result` (the returned `Manager` is the
receiver's state after the call); Go `error` results of `GetUserByName`
become `Option String` (`none` = nil error) so that the caller's
`errors.Is` test on them stays representable. The standard-library
functions `net/mail.ParseAddress` and `encoding/json.Unmarshal` are
external to the repository: the embedding takes them as parameters
(theorems hold for every choice), and small concrete stand-ins are
provided solely to instantiate closed witnesses.
-/

/-- Embeds `net/mail.Address`: a display name and the address text. -/
structure MailAddress where
  Name : String
  Address : String
deriving DecidableEq, Repr

/-- Embeds the `User` struct of `users/users.go`. -/
structure User where
  FirstName : String
  LastName : String
  Email : MailAddress
deriving DecidableEq, Repr

/-- Embeds the `Manager` struct: the ordered slice of users. -/
structure Manager where
  users : List User
deriving DecidableEq, Repr

/-- Embeds `NewManager`: a manager with an empty slice. -/
def NewManager : Manager := ⟨[]⟩

/-- Embeds the sentinel `ErrNoResultFound = errors.New("no result found")`. -/
def ErrNoResultFound : String := "no result found"

/-- The loop of `GetUserByName`: first user whose two name fields both
match, scanning in slice order. -/
def getUserByNameAux (usersList : List User) (first last : String) : Option User :=
  match usersList with
  | [] => none
  | u :: rest =>
    if u.FirstName = first ∧ u.LastName = last then some u
    else getUserByNameAux rest first last

/-- Embeds `Manager.GetUserByName`: `(result, err)` where a found user comes
with a nil error and a miss comes with the `ErrNoResultFound` sentinel. -/
def Manager.GetUserByName (m : Manager) (first last : String) :
    Option User × Option String :=
  match getUserByNameAux m.users first last with
  | some u => (some u, none)
  | none => (none, some ErrNoResultFound)

/-- State-passing form of `Manager.GetUserByName`: the method's receiver
state after the call, paired with its two results. The method body never
assigns to `m.users`, which the translation makes explicit by returning the
receiver unchanged in both branches. -/
def Manager.GetUserByNameS (m : Manager) (first last : String) :
    Manager × (Option User × Option String) :=
  match getUserByNameAux m.users first last with
  | some u => (m, (some u, none))
  | none => (m, (none, some ErrNoResultFound))

/-- The possible error results of `AddUser`, one constructor per `return`
of a non-nil error in the source, carrying the value the message echoes. -/
inductive AddUserError where
  | invalidFirstName (value : String)
  | invalidLastName (value : String)
  | errorGettingUserByName
  | duplicateUser
  | invalidEmail (value : String)
deriving DecidableEq, Repr

/-- Embeds the condition `err != nil && !errors.Is(err, ErrNoResultFound)`
of `AddUser`'s lookup-error branch. -/
def lookupErrIsHard : Option String → Bool
  | none => false
  | some e => e != ErrNoResultFound

/-- Embeds `Manager.AddUser`. `parseAddress` stands for
`net/mail.ParseAddress` (`none` = parse error). Returns the receiver's
state after the call together with the returned error (`none` = nil). -/
def Manager.AddUser (parseAddress : String → Option MailAddress)
    (m : Manager) (firstName lastName email : String) :
    Manager × Option AddUserError :=
  if firstName = "" then (m, some (.invalidFirstName firstName))
  else if lastName = "" then (m, some (.invalidLastName lastName))
  else
    let lookup := m.GetUserByName firstName lastName
    if lookupErrIsHard lookup.2 then (m, some .errorGettingUserByName)
    else if lookup.1.isSome then (m, some .duplicateUser)
    else
      match parseAddress email with
      | none => (m, some (.invalidEmail email))
      | some parsedAddress =>
        (⟨m.users ++ [{ FirstName := firstName, LastName := lastName,
                        Email := parsedAddress }]⟩, none)

/-- The registry invariant of the spec: no two records share the
(first name, last name) pair, and both names are non-empty everywhere. -/
def Invariant (m : Manager) : Prop :=
  (m.users.map fun u => (u.FirstName, u.LastName)).Nodup ∧
  ∀ u ∈ m.users, u.FirstName ≠ "" ∧ u.LastName ≠ ""

instance (m : Manager) : Decidable (Invariant m) := by
  unfold Invariant; infer_instance

/-! ## HTTP handler model

A handler's observable behavior on a request is its status code and the
body it writes (`http.Error` appends a newline to its message). The
request is reduced to the part the handler reads: the raw query string for
`handleHelloParameterized`, the request body for `handleJSON`. -/

/-- Status code and body of a response. -/
structure HttpResponse where
  code : Nat
  body : String
deriving DecidableEq, Repr

/-- Embeds the `UserData` struct the JSON body is unmarshalled into. -/
structure UserData where
  Name : String
deriving DecidableEq, Repr

/-- Splits a character list at every occurrence of `c`
(`strings.Split`-style: always at least one part, empty parts kept). -/
def splitOnChar (c : Char) : List Char → List (List Char)
  | [] => [[]]
  | x :: xs =>
    let r := splitOnChar c xs
    if x = c then [] :: r
    else
      match r with
      | [] => [[x]]
      | y :: ys => (x :: y) :: ys

/-- Embeds `strings.Cut(seg, "=")`: the part before the first `=`, the part
after it, and whether one was found (`("", seg, false)` pattern reversed:
absent separator gives the whole input and an empty remainder). -/
def cutEq : List Char → List Char × List Char × Bool
  | [] => ([], [], false)
  | c :: cs =>
    if c = '=' then ([], cs, true)
    else
      let r := cutEq cs
      (c :: r.1, r.2.1, r.2.2)

/-- Embeds `url.ParseQuery` as used by `handleHelloParameterized`: split
the raw query on `&`, skip empty segments, cut each at the first `=`.
Percent-decoding and the semicolon check are omitted (the claims and
witnesses use only literal keys and values). Pairs are kept in the order
they appear in the query string, which is the order `url.Values` keeps
values of one key in. -/
def parseQuery (rawQuery : String) : List (String × String) :=
  (splitOnChar '&' rawQuery.data).filterMap fun seg =>
    if seg = [] then none
    else
      let kv := cutEq seg
      some (String.mk kv.1, String.mk kv.2.1)

/-- The list `params[key]` of `url.Values`: the values of every pair with
this exact key, in query-string order. -/
def queryGet (q : List (String × String)) (key : String) : List String :=
  (q.filter fun kv => kv.1 == key).map fun kv => kv.2

/-- Embeds `handleHello`: writes `Hello <username>!\n` with status 200. -/
def handleHello (username : String) : HttpResponse :=
  ⟨200, "Hello " ++ username ++ "!\n"⟩

/-- Embeds `handleHelloParameterized`: `username` defaults to `"User"` and
is replaced by `userlist[0]` whenever `params["user"]` is non-empty. -/
def handleHelloParameterized (rawQuery : String) : HttpResponse :=
  let userlist := queryGet (parseQuery rawQuery) "user"
  let username :=
    match userlist with
    | [] => "User"
    | u :: _ => u
  handleHello username

/-- Embeds `handleJSON`. `unmarshal` stands for `encoding/json.Unmarshal`
into `UserData` (`none` = unmarshal error). The `io.ReadAll` failure
branch has no counterpart: the model receives the body already read. -/
def handleJSON (unmarshal : String → Option UserData) (body : String) :
    HttpResponse :=
  if body.length = 0 then ⟨400, "empty request body\n"⟩
  else
    match unmarshal body with
    | none => ⟨400, "error parsing request body\n"⟩
    | some reqData =>
      if reqData.Name = "" then ⟨400, "invalid request body!\n"⟩
      else handleHello reqData.Name

/-! ## Concrete stand-ins for the two standard-library parsers

All theorems below are parametric in `parseAddress` and `unmarshal`; these
two computable instances exist only so that closed witnesses and
counterexamples can be evaluated. Each agrees with its library function on
every input a witness uses. -/

/-- Stand-in for `net/mail.ParseAddress`: accepts `local@domain` with both
parts non-empty and no display name, as every witness email is. -/
def parseAddressSimple (s : String) : Option MailAddress :=
  match splitOnChar '@' s.data with
  | [localPart, domain] =>
    if localPart = [] ∨ domain = [] then none
    else some { Name := "", Address := s }
  | _ => none

/-- An opening curly brace (written by code point to keep brace characters
out of the source text). -/
def lbrace : Char := Char.ofNat 123

/-- A closing curly brace. -/
def rbrace : Char := Char.ofNat 125

/-- Reads the characters of a quote-delimited JSON string value that must
be followed by exactly a closing brace and end of input; rejects escapes
and unterminated strings (as `encoding/json` does). -/
def readNameValue : List Char → Option (List Char)
  | [] => none
  | c :: rest =>
    if c = '"' then
      if rest = [rbrace] then some [] else none
    else if c = '\\' then none
    else
      match readNameValue rest with
      | none => none
      | some cs => some (c :: cs)

/-- Stand-in for `encoding/json.Unmarshal` into `UserData`: accepts exactly
the texts of the shape `\x7b"Name":"<value>"\x7d` with an escape-free
value; everything else — in particular a lone `\x7b` — fails, as it does
under `encoding/json`. -/
def unmarshalUserData (s : String) : Option UserData :=
  match s.data with
  | c0 :: '"' :: 'N' :: 'a' :: 'm' :: 'e' :: '"' :: ':' :: '"' :: rest =>
    if c0 = lbrace then (readNameValue rest).map fun cs => { Name := String.mk cs }
    else none
  | _ => none

/-! ## Helper lemmas -/

theorem getUserByNameAux_eq_none_iff (xs : List User) (f l : String) :
    getUserByNameAux xs f l = none ↔
      ∀ u ∈ xs, ¬(u.FirstName = f ∧ u.LastName = l) := by
  induction xs with
  | nil => simp [getUserByNameAux]
  | cons u rest ih =>
    simp only [getUserByNameAux]
    split
    · simp_all
    · simp_all

theorem getUserByNameAux_mem (xs : List User) (f l : String) (u : User)
    (h : getUserByNameAux xs f l = some u) :
    u ∈ xs ∧ u.FirstName = f ∧ u.LastName = l := by
  induction xs with
  | nil => simp [getUserByNameAux] at h
  | cons w rest ih =>
    simp only [getUserByNameAux] at h
    split at h
    · rename_i hw
      injection h with h
      subst h
      exact ⟨List.mem_cons_self _ _, hw⟩
    · have hr := ih h
      exact ⟨List.mem_cons_of_mem _ hr.1, hr.2⟩

theorem getUserByNameAux_append_of_none (xs ys : List User) (f l : String)
    (h : getUserByNameAux xs f l = none) :
    getUserByNameAux (xs ++ ys) f l = getUserByNameAux ys f l := by
  induction xs with
  | nil => rfl
  | cons u rest ih =>
    simp only [getUserByNameAux, List.cons_append] at h ⊢
    split at h
    · exact absurd h (by simp)
    · rename_i hcond
      rw [if_neg hcond]
      exact ih h

theorem getUserByNameAux_first (pre : List User) (u : User) (post : List User)
    (f l : String) (hu : u.FirstName = f ∧ u.LastName = l)
    (hpre : ∀ v ∈ pre, ¬(v.FirstName = f ∧ v.LastName = l)) :
    getUserByNameAux (pre ++ u :: post) f l = some u := by
  have hnone : getUserByNameAux pre f l = none :=
    (getUserByNameAux_eq_none_iff pre f l).mpr hpre
  rw [getUserByNameAux_append_of_none pre (u :: post) f l hnone]
  simp only [getUserByNameAux, if_pos hu]

theorem lookupErrIsHard_getUserByName (m : Manager) (f l : String) :
    lookupErrIsHard (m.GetUserByName f l).2 = false := by
  cases h : getUserByNameAux m.users f l <;>
    simp [Manager.GetUserByName, h, lookupErrIsHard]

theorem getUserByName_fst_isSome_iff (m : Manager) (f l : String) :
    (m.GetUserByName f l).1.isSome = true ↔
      ∃ u ∈ m.users, u.FirstName = f ∧ u.LastName = l := by
  constructor
  · intro hs
    cases h : getUserByNameAux m.users f l with
    | none => simp [Manager.GetUserByName, h] at hs
    | some u =>
      have hm := getUserByNameAux_mem m.users f l u h
      exact ⟨u, hm.1, hm.2⟩
  · rintro ⟨u, hu, hmatch⟩
    cases h : getUserByNameAux m.users f l with
    | none =>
      rw [getUserByNameAux_eq_none_iff] at h
      exact absurd hmatch (h u hu)
    | some v => simp [Manager.GetUserByName, h]

theorem addUser_of_dup (p : String → Option MailAddress) (m : Manager)
    (f l e : String) (hf : f ≠ "") (hl : l ≠ "")
    (hdup : ∃ u ∈ m.users, u.FirstName = f ∧ u.LastName = l) :
    m.AddUser p f l e = (m, some .duplicateUser) := by
  have hs : (m.GetUserByName f l).1.isSome = true :=
    (getUserByName_fst_isSome_iff m f l).mpr hdup
  simp [Manager.AddUser, hf, hl, lookupErrIsHard_getUserByName, hs]

theorem addUser_success_eq (p : String → Option MailAddress) (m : Manager)
    (f l e : String) (addr : MailAddress) (hf : f ≠ "") (hl : l ≠ "")
    (hnone : getUserByNameAux m.users f l = none) (hp : p e = some addr) :
    m.AddUser p f l e = (⟨m.users ++ [⟨f, l, addr⟩]⟩, none) := by
  simp [Manager.AddUser, hf, hl, Manager.GetUserByName, hnone, lookupErrIsHard, hp]

theorem addUser_none_or_frame (p : String → Option MailAddress) (m : Manager)
    (f l e : String) :
    (m.AddUser p f l e).2 = none ∨ (m.AddUser p f l e).1 = m := by
  by_cases hf : f = ""
  · simp [Manager.AddUser, hf]
  by_cases hl : l = ""
  · simp [Manager.AddUser, hf, hl]
  cases hn : getUserByNameAux m.users f l with
  | some u =>
    have hs : (m.GetUserByName f l).1.isSome = true := by
      simp [Manager.GetUserByName, hn]
    simp [Manager.AddUser, hf, hl, lookupErrIsHard_getUserByName, hs]
  | none =>
    cases hp : p e with
    | none =>
      simp [Manager.AddUser, hf, hl, Manager.GetUserByName, hn, lookupErrIsHard, hp]
    | some addr =>
      left
      rw [addUser_success_eq p m f l e addr hf hl hn hp]

theorem addUser_success_inv (p : String → Option MailAddress) (m : Manager)
    (f l e : String) (h : (m.AddUser p f l e).2 = none) :
    f ≠ "" ∧ l ≠ "" ∧ getUserByNameAux m.users f l = none ∧
      ∃ addr, p e = some addr ∧
        (m.AddUser p f l e).1 = ⟨m.users ++ [⟨f, l, addr⟩]⟩ := by
  by_cases hf : f = ""
  · simp [Manager.AddUser, hf] at h
  by_cases hl : l = ""
  · simp [Manager.AddUser, hf, hl] at h
  cases hn : getUserByNameAux m.users f l with
  | some u =>
    have hs : (m.GetUserByName f l).1.isSome = true := by
      simp [Manager.GetUserByName, hn]
    simp [Manager.AddUser, hf, hl, lookupErrIsHard_getUserByName, hs] at h
  | none =>
    cases hp : p e with
    | none =>
      simp [Manager.AddUser, hf, hl, Manager.GetUserByName, hn, lookupErrIsHard, hp] at h
    | some addr =>
      refine ⟨hf, hl, rfl, addr, rfl, ?_⟩
      rw [addUser_success_eq p m f l e addr hf hl hn hp]

/-! ## Claim theorems -/

/-- C1: when a record with the same (first, last) pair is already present
and both names are non-empty, `AddUser` fails with the duplicate-user error
and leaves the registry unchanged; in particular, adding the same pair
twice starting from the empty registry leaves the size at 1 after the
second call. -/
theorem addUser_duplicate_unchanged (p : String → Option MailAddress)
    (m : Manager) (f l e : String) (hf : f ≠ "") (hl : l ≠ "")
    (hdup : ∃ u ∈ m.users, u.FirstName = f ∧ u.LastName = l) :
    (m.AddUser p f l e).2 = some .duplicateUser ∧
    (m.AddUser p f l e).1 = m ∧
    ∀ e₀ m₁, NewManager.AddUser p f l e₀ = (m₁, none) →
      (m₁.AddUser p f l e).2 = some .duplicateUser ∧
      (m₁.AddUser p f l e).1.users.length = 1 := by
  have h := addUser_of_dup p m f l e hf hl hdup
  refine ⟨by rw [h], by rw [h], ?_⟩
  intro e₀ m₁ h₁
  obtain ⟨-, -, -, addr, hp, heq⟩ :=
    addUser_success_inv p NewManager f l e₀ (by rw [h₁])
  have hm₁ : m₁ = ⟨[⟨f, l, addr⟩]⟩ := by
    have hfst : (NewManager.AddUser p f l e₀).1 = m₁ := by rw [h₁]
    rw [hfst] at heq
    simpa [NewManager] using heq
  have hdup₁ : ∃ u ∈ m₁.users, u.FirstName = f ∧ u.LastName = l := by
    rw [hm₁]; exact ⟨⟨f, l, addr⟩, by simp, rfl, rfl⟩
  have h₂ := addUser_of_dup p m₁ f l e hf hl hdup₁
  rw [h₂, hm₁]
  exact ⟨rfl, rfl⟩

theorem addUser_duplicate_unchanged_witness :
    ((⟨[⟨"jhon", "smith", ⟨"", "foo@bar.com"⟩⟩]⟩ : Manager).AddUser
        parseAddressSimple "jhon" "smith" "f.foo@bar.com").2 =
      some .duplicateUser ∧
    ((⟨[⟨"jhon", "smith", ⟨"", "foo@bar.com"⟩⟩]⟩ : Manager).AddUser
        parseAddressSimple "jhon" "smith" "f.foo@bar.com").1 =
      ⟨[⟨"jhon", "smith", ⟨"", "foo@bar.com"⟩⟩]⟩ := by
  have h := addUser_duplicate_unchanged parseAddressSimple
    ⟨[⟨"jhon", "smith", ⟨"", "foo@bar.com"⟩⟩]⟩ "jhon" "smith" "f.foo@bar.com"
    (by decide) (by decide) (by decide)
  exact ⟨h.1, h.2.1⟩

/-- C2: the checks of `AddUser` fire in the order empty-first-name,
empty-last-name, duplicate pair, email parse; an empty first name wins over
everything, an empty last name over the later checks, and a duplicate pair
is reported even when the email would not parse. -/
theorem addUser_check_order (p : String → Option MailAddress) (m : Manager)
    (f l e : String) :
    (f = "" → m.AddUser p f l e = (m, some (.invalidFirstName f))) ∧
    (f ≠ "" → l = "" → m.AddUser p f l e = (m, some (.invalidLastName l))) ∧
    (f ≠ "" → l ≠ "" → (∃ u ∈ m.users, u.FirstName = f ∧ u.LastName = l) →
      m.AddUser p f l e = (m, some .duplicateUser)) := by
  refine ⟨?_, ?_, ?_⟩
  · intro hf; simp [Manager.AddUser, hf]
  · intro hf hl; simp [Manager.AddUser, hf, hl]
  · intro hf hl hdup; exact addUser_of_dup p m f l e hf hl hdup

theorem addUser_check_order_witness :
    NewManager.AddUser parseAddressSimple "" "smith" "notanemail" =
      (NewManager, some (.invalidFirstName "")) :=
  (addUser_check_order parseAddressSimple NewManager "" "smith" "notanemail").1 rfl

/-- C3: the registry invariant (pairwise-distinct (first, last) keys and
non-empty names) holds for the empty registry and is preserved by
`AddUser` and by `GetUserByName`, hence holds in every reachable state. -/
theorem registry_invariant_reachable :
    Invariant NewManager ∧
    (∀ (p : String → Option MailAddress) (m : Manager) (f l e : String),
      Invariant m → Invariant (m.AddUser p f l e).1) ∧
    (∀ (m : Manager) (f l : String),
      Invariant m → Invariant (m.GetUserByNameS f l).1) := by
  refine ⟨⟨by simp [NewManager], by simp [NewManager]⟩, ?_, ?_⟩
  · intro p m f l e hm
    rcases addUser_none_or_frame p m f l e with hnone | hfr
    · obtain ⟨hf, hl, hlook, addr, hp, heq⟩ :=
        addUser_success_inv p m f l e hnone
      rw [heq]
      constructor
      · simp only [List.map_append, List.map_cons, List.map_nil]
        rw [List.nodup_append]
        refine ⟨hm.1, List.nodup_singleton _, ?_⟩
        intro x hx hx'
        simp only [List.mem_singleton] at hx'
        subst hx'
        rw [List.mem_map] at hx
        obtain ⟨u, hu, hup⟩ := hx
        simp only [Prod.mk.injEq] at hup
        rw [getUserByNameAux_eq_none_iff] at hlook
        exact hlook u hu hup
      · intro u hu
        rw [List.mem_append] at hu
        rcases hu with hu | hu
        · exact hm.2 u hu
        · simp only [List.mem_singleton] at hu
          subst hu
          exact ⟨hf, hl⟩
    · rw [hfr]; exact hm
  · intro m f l hm
    cases h : getUserByNameAux m.users f l <;>
      simp [Manager.GetUserByNameS, h, hm]

theorem registry_invariant_reachable_witness :
    Invariant ((⟨[⟨"foo", "bar", ⟨"", "f.foo@bar.com"⟩⟩]⟩ : Manager).AddUser
      parseAddressSimple "bari" "foo" "bar@bar.com").1 :=
  registry_invariant_reachable.2.1 parseAddressSimple
    ⟨[⟨"foo", "bar", ⟨"", "f.foo@bar.com"⟩⟩]⟩ "bari" "foo" "bar@bar.com"
    (by decide)

/-- C4: every failing `AddUser` call — whatever the error — leaves the
record sequence exactly as it was before the call. -/
theorem addUser_failure_frame (p : String → Option MailAddress) (m : Manager)
    (f l e : String) (err : AddUserError)
    (h : (m.AddUser p f l e).2 = some err) :
    (m.AddUser p f l e).1 = m := by
  rcases addUser_none_or_frame p m f l e with hn | hfr
  · rw [hn] at h; exact absurd h (by simp)
  · exact hfr

theorem addUser_failure_frame_witness :
    ((⟨[]⟩ : Manager).AddUser parseAddressSimple "jhon" "smith" "foobar").1 =
      ⟨[]⟩ :=
  addUser_failure_frame parseAddressSimple ⟨[]⟩ "jhon" "smith" "foobar"
    (.invalidEmail "foobar") (by decide)

/-- C5: with non-empty names, a parseable email and no pre-existing record
with the same pair, `AddUser` succeeds and a subsequent `GetUserByName`
returns a record whose fields are exactly the values passed in (the email
field being the parsed form of the email argument). -/
theorem addUser_then_getUserByName (p : String → Option MailAddress)
    (m : Manager) (f l e : String) (addr : MailAddress)
    (hf : f ≠ "") (hl : l ≠ "") (hp : p e = some addr)
    (hnew : ∀ u ∈ m.users, ¬(u.FirstName = f ∧ u.LastName = l)) :
    (m.AddUser p f l e).2 = none ∧
    (m.AddUser p f l e).1.GetUserByName f l = (some ⟨f, l, addr⟩, none) := by
  have hnone : getUserByNameAux m.users f l = none :=
    (getUserByNameAux_eq_none_iff m.users f l).mpr hnew
  rw [addUser_success_eq p m f l e addr hf hl hnone hp]
  refine ⟨rfl, ?_⟩
  have hfirst : getUserByNameAux (m.users ++ [⟨f, l, addr⟩]) f l =
      some ⟨f, l, addr⟩ :=
    getUserByNameAux_first m.users ⟨f, l, addr⟩ [] f l ⟨rfl, rfl⟩ hnew
  simp [Manager.GetUserByName, hfirst]

theorem addUser_then_getUserByName_witness :
    ((⟨[]⟩ : Manager).AddUser parseAddressSimple "jhon" "smith"
        "foo@bar.com").2 = none ∧
    ((⟨[]⟩ : Manager).AddUser parseAddressSimple "jhon" "smith"
        "foo@bar.com").1.GetUserByName "jhon" "smith" =
      (some ⟨"jhon", "smith", ⟨"", "foo@bar.com"⟩⟩, none) :=
  addUser_then_getUserByName parseAddressSimple ⟨[]⟩ "jhon" "smith"
    "foo@bar.com" ⟨"", "foo@bar.com"⟩ (by decide) (by decide) (by decide)
    (by decide)

/-- C6: `GetUserByName` returns the first record of the sequence whose two
name fields both equal the inputs under exact string equality, and returns
the `NoResultFound` outcome whenever no record matches. -/
theorem getUserByName_scan (m : Manager) (f l : String) :
    ((∀ u ∈ m.users, ¬(u.FirstName = f ∧ u.LastName = l)) →
      m.GetUserByName f l = (none, some ErrNoResultFound)) ∧
    (∀ pre u post, m.users = pre ++ u :: post →
      u.FirstName = f → u.LastName = l →
      (∀ v ∈ pre, ¬(v.FirstName = f ∧ v.LastName = l)) →
      m.GetUserByName f l = (some u, none)) := by
  constructor
  · intro h
    have hn := (getUserByNameAux_eq_none_iff m.users f l).mpr h
    simp [Manager.GetUserByName, hn]
  · intro pre u post heq hf hl hpre
    have hfirst := getUserByNameAux_first pre u post f l ⟨hf, hl⟩ hpre
    simp [Manager.GetUserByName, heq, hfirst]

theorem getUserByName_scan_witness :
    (⟨[⟨"foo", "bar", ⟨"", "f.foo@bar.com"⟩⟩,
       ⟨"bari", "foo", ⟨"", "bar@bar.com"⟩⟩]⟩ : Manager).GetUserByName
        "foo" "foo" = (none, some ErrNoResultFound) ∧
    (⟨[⟨"foo", "bar", ⟨"", "f.foo@bar.com"⟩⟩,
       ⟨"bari", "foo", ⟨"", "bar@bar.com"⟩⟩]⟩ : Manager).GetUserByName
        "bari" "foo" = (some ⟨"bari", "foo", ⟨"", "bar@bar.com"⟩⟩, none) :=
  ⟨(getUserByName_scan _ "foo" "foo").1 (by decide),
   (getUserByName_scan _ "bari" "foo").2
     [⟨"foo", "bar", ⟨"", "f.foo@bar.com"⟩⟩]
     ⟨"bari", "foo", ⟨"", "bar@bar.com"⟩⟩ [] rfl rfl rfl (by decide)⟩

/-- C8: the lookup error of `GetUserByName` is always either nil (record
found) or the `NoResultFound` sentinel, so `AddUser`'s generic
"error getting user by name" branch can never be its result. -/
theorem lookup_hard_error_unreachable :
    (∀ (m : Manager) (f l : String),
      (∃ u, m.GetUserByName f l = (some u, none)) ∨
      m.GetUserByName f l = (none, some ErrNoResultFound)) ∧
    (∀ (p : String → Option MailAddress) (m : Manager) (f l e : String),
      (m.AddUser p f l e).2 ≠ some .errorGettingUserByName) := by
  constructor
  · intro m f l
    cases h : getUserByNameAux m.users f l with
    | none => right; simp [Manager.GetUserByName, h]
    | some u => left; exact ⟨u, by simp [Manager.GetUserByName, h]⟩
  · intro p m f l e h
    by_cases hf : f = ""
    · simp [Manager.AddUser, hf] at h
    by_cases hl : l = ""
    · simp [Manager.AddUser, hf, hl] at h
    cases hn : getUserByNameAux m.users f l with
    | some u =>
      have hs : (m.GetUserByName f l).1.isSome = true := by
        simp [Manager.GetUserByName, hn]
      simp [Manager.AddUser, hf, hl, lookupErrIsHard_getUserByName, hs] at h
    | none =>
      cases hp : p e with
      | none =>
        simp [Manager.AddUser, hf, hl, Manager.GetUserByName, hn,
          lookupErrIsHard, hp] at h
      | some addr =>
        rw [addUser_success_eq p m f l e addr hf hl hn hp] at h
        simp at h

theorem lookup_hard_error_unreachable_witness :
    ((⟨[]⟩ : Manager).AddUser parseAddressSimple "a" "b" "c").2 ≠
      some .errorGettingUserByName :=
  lookup_hard_error_unreachable.2 parseAddressSimple ⟨[]⟩ "a" "b" "c"

/-- C9: a `user` query parameter that is present with an empty value makes
the hello handler greet the empty name (not the `"User"` default), and
with several `user` parameters the first value in the query string is the
one greeted. -/
theorem helloParameterized_empty_and_first :
    handleHelloParameterized "user=" = ⟨200, "Hello !\n"⟩ ∧
    ∀ (rawQuery v : String) (vs : List String),
      queryGet (parseQuery rawQuery) "user" = v :: vs →
      handleHelloParameterized rawQuery = ⟨200, "Hello " ++ v ++ "!\n"⟩ := by
  refine ⟨by decide, ?_⟩
  intro rawQuery v vs h
  simp [handleHelloParameterized, h, handleHello]

theorem helloParameterized_empty_and_first_witness :
    handleHelloParameterized "user=Alice&user=Bob" = ⟨200, "Hello Alice!\n"⟩ :=
  helloParameterized_empty_and_first.2 "user=Alice&user=Bob" "Alice" ["Bob"]
    (by decide)

/-- C10: `GetUserByName` never modifies the registry: the receiver state
after the call is the state before it, for found and not-found lookups
alike, and the results agree with the pure lookup. -/
theorem getUserByName_pure_frame (m : Manager) (f l : String) :
    (m.GetUserByNameS f l).1 = m ∧
    (m.GetUserByNameS f l).2 = m.GetUserByName f l := by
  cases h : getUserByNameAux m.users f l <;>
    simp [Manager.GetUserByNameS, Manager.GetUserByName, h]

/-- C7 counterexample: a request body that is malformed JSON (a lone
opening brace) is answered with `error parsing request body\n`, not with
the `invalid request body!\n` the claim states. -/
theorem handleJSON_malformed_counterexample :
    handleJSON unmarshalUserData "\x7b" =
      ⟨400, "error parsing request body\n"⟩ ∧
    handleJSON unmarshalUserData "\x7b" ≠
      ⟨400, "invalid request body!\n"⟩ := by
  decide

/-- C7 (amended): the JSON handler answers 400 `empty request body\n` for
an empty body, 400 `error parsing request body\n` when unmarshalling
fails, 400 `invalid request body!\n` when the body unmarshals with an
empty `Name`, and 200 `Hello {Name}!\n` otherwise. -/
theorem handleJSON_responses (unmarshal : String → Option UserData)
    (body : String) :
    (body = "" → handleJSON unmarshal body = ⟨400, "empty request body\n"⟩) ∧
    (body ≠ "" → unmarshal body = none →
      handleJSON unmarshal body = ⟨400, "error parsing request body\n"⟩) ∧
    (∀ d, body ≠ "" → unmarshal body = some d → d.Name = "" →
      handleJSON unmarshal body = ⟨400, "invalid request body!\n"⟩) ∧
    (∀ d, body ≠ "" → unmarshal body = some d → d.Name ≠ "" →
      handleJSON unmarshal body = ⟨200, "Hello " ++ d.Name ++ "!\n"⟩) := by
  have hlen : body ≠ "" → ¬(body.length = 0) := by
    intro hb h0
    apply hb
    cases body with
    | mk data =>
      cases data with
      | nil => rfl
      | cons c cs => simp [String.length] at h0
  refine ⟨?_, ?_, ?_, ?_⟩
  · intro hb; simp [handleJSON, hb]
  · intro hb hm; simp [handleJSON, hlen hb, hm]
  · intro d hb hm hname; simp [handleJSON, hlen hb, hm, hname]
  · intro d hb hm hname; simp [handleJSON, hlen hb, hm, hname, handleHello]

theorem handleJSON_responses_witness :
    handleJSON unmarshalUserData "\x7b\"Name\":\"human\"\x7d" =
      ⟨200, "Hello human!\n"⟩ :=
  (handleJSON_responses unmarshalUserData
      "\x7b\"Name\":\"human\"\x7d").2.2.2 ⟨"human"⟩ (by decide) (by decide)
    (by decide)
